import Mathlib

/-!
Shallow embedding of the rotating segmented file storage layer of the
`gather-blocks` repository (`src/efficient_file_writer.rs`): the paired
`EfficientFileWriter` / `EfficientFileReader`, modelled over an explicit
filesystem state.

Modelling conventions:
* Bytes are `Nat` (the values that occur are < 256); the delimiter is `10`.
* The filesystem is an association list from path strings to byte lists,
  plus the set of directories created and a set of fault-injected paths on
  which low-level create/open/flush system calls fail (modelling the
  `std::io::Error` outcomes of the underlying OS calls).
* A `BufWriter` is modelled as the list of bytes accepted but not yet
  flushed to the file; a `BufReader` as the list of still-unread bytes of
  the file snapshot taken when the handle was opened.
* Rust's `%` panics on a zero divisor; the embedding makes that explicit
  as the `Err.divByZeroPanic` outcome.
* `read_line` reads through a Rust `String`, so the bytes appended by one
  call must be valid UTF-8; validity is modelled by the standard UTF-8
  acceptance automaton (`utf8Step`), and `String::pop` by `strPop`.
-/

deriving instance DecidableEq for Except

namespace GatherBlocks

/-- Error outcomes of the modelled operations: `notFound` and `fault` are the
`std::io::Error` results of open/create/flush system calls, `invalidData` is
the `io::ErrorKind::InvalidData` produced when `read_line` meets bytes that
are not valid UTF-8, and `divByZeroPanic` marks that execution reached
Rust's `%` with a zero divisor (which panics). -/
inductive Err where
  | notFound
  | invalidData
  | fault
  | divByZeroPanic
deriving DecidableEq

/-- Association-list lookup over the file table. -/
def AList.get? : List (String × List Nat) → String → Option (List Nat)
  | [], _ => none
  | e :: es, p => if e.1 = p then some e.2 else AList.get? es p

/-- Association-list update: replace the first entry with key `p`, or append
a new entry at the end of the table. -/
def AList.set : List (String × List Nat) → String → List Nat → List (String × List Nat)
  | [], p, v => [(p, v)]
  | e :: es, p, v => if e.1 = p then (p, v) :: es else e :: AList.set es p v

/-- Filesystem state: directories that exist, the file table, and paths on
which the underlying system calls fail (fault injection for `IOError`). -/
structure FS where
  dirs : List String
  files : List (String × List Nat)
  failing : List String
deriving DecidableEq

def FS.empty : FS := ⟨[], [], []⟩

def FS.readFile (fs : FS) (path : String) : Option (List Nat) :=
  AList.get? fs.files path

/-- Content of `path`, defaulting to `[]` when the file does not exist. -/
def FS.readD (fs : FS) (path : String) : List Nat :=
  (fs.readFile path).getD []

/-- Model of `File::create`: truncate or create the file. -/
def FS.createFile (fs : FS) (path : String) : FS :=
  { fs with files := AList.set fs.files path [] }

/-- Model of writing bytes through an open handle at the end of a file. -/
def FS.appendFile (fs : FS) (path : String) (data : List Nat) : FS :=
  { fs with files := AList.set fs.files path (fs.readD path ++ data) }

/-- Model of `std::fs::create_dir_all`: idempotent directory creation. -/
def FS.createDirAll (fs : FS) (d : String) : FS :=
  if d ∈ fs.dirs then fs else { fs with dirs := fs.dirs ++ [d] }

/-- Segment file name: `format!("{}.{}", base_name, k)`. -/
def segName (base : String) (k : Nat) : String :=
  base ++ "." ++ Nat.repr k

/-- Full path of a segment file: `directory.join(segName)`. -/
def segPath (dir base : String) (k : Nat) : String :=
  dir ++ "/" ++ segName base k

/-- Standard UTF-8 acceptance automaton, one step per byte.  State 0 is the
accepting start state; states 1-3 expect that many continuation bytes;
states 4-7 are the restricted-first-continuation states after the lead
bytes 0xE0, 0xED, 0xF0 and 0xF4; state 99 is the reject sink. -/
def utf8Step (st b : Nat) : Nat :=
  match st with
  | 0 =>
    if b < 128 then 0
    else if 194 ≤ b ∧ b ≤ 223 then 1
    else if b = 224 then 4
    else if 225 ≤ b ∧ b ≤ 236 then 2
    else if b = 237 then 5
    else if 238 ≤ b ∧ b ≤ 239 then 2
    else if b = 240 then 6
    else if 241 ≤ b ∧ b ≤ 243 then 3
    else if b = 244 then 7
    else 99
  | 1 => if 128 ≤ b ∧ b ≤ 191 then 0 else 99
  | 2 => if 128 ≤ b ∧ b ≤ 191 then 1 else 99
  | 3 => if 128 ≤ b ∧ b ≤ 191 then 2 else 99
  | 4 => if 160 ≤ b ∧ b ≤ 191 then 1 else 99
  | 5 => if 128 ≤ b ∧ b ≤ 159 then 1 else 99
  | 6 => if 144 ≤ b ∧ b ≤ 191 then 2 else 99
  | 7 => if 128 ≤ b ∧ b ≤ 143 then 2 else 99
  | _ => 99

def utf8Run (st : Nat) (l : List Nat) : Nat :=
  l.foldl utf8Step st

/-- A byte sequence is valid UTF-8 when the automaton, started in the
accepting state, ends in the accepting state. -/
def validUtf8 (l : List Nat) : Bool :=
  utf8Run 0 l = 0

/-- Continuation byte test, used to model `String::pop` at the byte level. -/
def isContByte (b : Nat) : Bool :=
  128 ≤ b && b < 192

/-- Model of `String::pop` on the underlying bytes: remove the trailing
continuation bytes and the lead byte of the final character; the empty
string is left unchanged. -/
def strPop (l : List Nat) : List Nat :=
  match l.reverse.dropWhile isContByte with
  | [] => []
  | _ :: rest => rest.reverse

/-- Model of `BufRead::read_until(b'\n')` on the unread bytes of a handle:
returns the bytes read (including the delimiter when one was found) and the
remaining unread bytes. -/
def readUntilNl : List Nat → List Nat × List Nat
  | [] => ([], [])
  | b :: rest =>
    if b = 10 then ([10], rest)
    else
      let p := readUntilNl rest
      (b :: p.1, p.2)

/-- State of `EfficientFileWriter`: `current_seg` is the boundary index of
the segment whose `File`/`BufWriter` pair is currently held (the `k` of the
file the handle points at), and `buffer` the bytes sitting in the
`BufWriter` that have not reached the file yet. -/
structure EfficientFileWriter where
  base_name : String
  directory : String
  writes_per_file : Nat
  writes_performed : Nat
  current_seg : Nat
  buffer : List Nat
deriving DecidableEq

/-- Model of `EfficientFileWriter::new`: create the directory, then
create/truncate segment `base_name.0` and hold its handle.  There is no
validation of `writes_per_file`. -/
def EfficientFileWriter.new (base : String) (wpf : Nat) (dir : String) (fs : FS) :
    Except Err EfficientFileWriter × FS :=
  if dir ∈ fs.failing then (Except.error Err.fault, fs)
  else
    let fs1 := fs.createDirAll dir
    let p0 := segPath dir base 0
    if p0 ∈ fs1.failing then (Except.error Err.fault, fs1)
    else (Except.ok ⟨base, dir, wpf, 0, 0, []⟩, fs1.createFile p0)

/-- Model of `EfficientFileWriter::write`: buffer the record bytes and the
newline, increment `writes_performed`, and when the new count is an exact
multiple of `writes_per_file` create the next segment file and make it
current (dropping the old `BufWriter` flushes it, errors ignored).  The
state triple is returned even on the error paths, since the Rust code
mutates `self` in place before the fallible create.  Rust's `%` panics on a
zero divisor, modelled by the explicit `divByZeroPanic` outcome. -/
def EfficientFileWriter.write (w : EfficientFileWriter) (fs : FS) (data : List Nat) :
    Except Err Nat × EfficientFileWriter × FS :=
  let buf1 := w.buffer ++ data ++ [10]
  let n := data.length + 1
  let wp := w.writes_performed + 1
  if w.writes_per_file = 0 then
    (Except.error Err.divByZeroPanic, { w with buffer := buf1, writes_performed := wp }, fs)
  else if wp % w.writes_per_file = 0 then
    let newPath := segPath w.directory w.base_name wp
    if newPath ∈ fs.failing then
      (Except.error Err.fault, { w with buffer := buf1, writes_performed := wp }, fs)
    else
      let fs1 := fs.createFile newPath
      let oldPath := segPath w.directory w.base_name w.current_seg
      let fs2 := if oldPath ∈ fs1.failing then fs1 else fs1.appendFile oldPath buf1
      (Except.ok n,
        { w with buffer := [], writes_performed := wp, current_seg := wp }, fs2)
  else
    (Except.ok n, { w with buffer := buf1, writes_performed := wp }, fs)

/-- Model of `EfficientFileWriter::flush`: force the buffered bytes to the
current segment file. -/
def EfficientFileWriter.flush (w : EfficientFileWriter) (fs : FS) :
    Except Err Unit × EfficientFileWriter × FS :=
  let p := segPath w.directory w.base_name w.current_seg
  if p ∈ fs.failing then (Except.error Err.fault, w, fs)
  else (Except.ok (), { w with buffer := [] }, fs.appendFile p w.buffer)

/-- Model of `EfficientFileWriter::current_file_name`; the subtraction
`writes_performed - writes_performed % writes_per_file` reaches Rust's `%`,
which panics when `writes_per_file = 0`. -/
def EfficientFileWriter.current_file_name (w : EfficientFileWriter) : Except Err String :=
  if w.writes_per_file = 0 then Except.error Err.divByZeroPanic
  else Except.ok
    (segName w.base_name (w.writes_performed - w.writes_performed % w.writes_per_file))

/-- State of `EfficientFileReader`: `stream` is the unread remainder of the
snapshot of the currently open segment file. -/
structure EfficientFileReader where
  base_name : String
  directory : String
  writes_per_file : Nat
  writes_performed : Nat
  current_seg : Nat
  stream : List Nat
deriving DecidableEq

/-- Model of `EfficientFileReader::new`: create the directory, then open
segment `base_name.0` for reading; fails with a not-found error when the
segment does not exist.  No validation of `writes_per_file`. -/
def EfficientFileReader.new (base : String) (wpf : Nat) (dir : String) (fs : FS) :
    Except Err EfficientFileReader × FS :=
  if dir ∈ fs.failing then (Except.error Err.fault, fs)
  else
    let fs1 := fs.createDirAll dir
    let p0 := segPath dir base 0
    if p0 ∈ fs1.failing then (Except.error Err.fault, fs1)
    else
      match fs1.readFile p0 with
      | none => (Except.error Err.notFound, fs1)
      | some content => (Except.ok ⟨base, dir, wpf, 0, 0, content⟩, fs1)

/-- Model of `EfficientFileReader::read_line`: `BufRead::read_line` reads
bytes up to and including the delimiter (or to end of stream), validates
the appended bytes as UTF-8 (restoring `buf` and failing with
`invalidData` otherwise), then the code pops the final character of `buf`,
increments `writes_performed`, and on an exact rotation boundary opens the
next segment.  The returned triple carries the caller's `buf` (a `&mut
String` in Rust), which is updated even when the subsequent open fails. -/
def EfficientFileReader.read_line (r : EfficientFileReader) (fs : FS) (buf : List Nat) :
    Except Err Nat × EfficientFileReader × List Nat :=
  let p := readUntilNl r.stream
  let chunk := p.1
  let rest := p.2
  if validUtf8 chunk = false then
    (Except.error Err.invalidData, { r with stream := rest }, buf)
  else
    let buf1 := strPop (buf ++ chunk)
    let n := chunk.length
    let wp := r.writes_performed + 1
    if r.writes_per_file = 0 then
      (Except.error Err.divByZeroPanic,
        { r with stream := rest, writes_performed := wp }, buf1)
    else if wp % r.writes_per_file = 0 then
      let nextPath := segPath r.directory r.base_name wp
      if nextPath ∈ fs.failing then
        (Except.error Err.fault, { r with stream := rest, writes_performed := wp }, buf1)
      else
        match fs.readFile nextPath with
        | none =>
          (Except.error Err.notFound,
            { r with stream := rest, writes_performed := wp }, buf1)
        | some content =>
          (Except.ok n,
            { r with stream := content, writes_performed := wp, current_seg := wp }, buf1)
    else
      (Except.ok n, { r with stream := rest, writes_performed := wp }, buf1)

/-- Model of `EfficientFileReader::current_file_name` (same formula as the
writer's). -/
def EfficientFileReader.current_file_name (r : EfficientFileReader) : Except Err String :=
  if r.writes_per_file = 0 then Except.error Err.divByZeroPanic
  else Except.ok
    (segName r.base_name (r.writes_performed - r.writes_performed % r.writes_per_file))

/-- Write a list of records in order, stopping at the first error. -/
def writeAll (w : EfficientFileWriter) (fs : FS) :
    List (List Nat) → Except Err Unit × EfficientFileWriter × FS
  | [] => (Except.ok (), w, fs)
  | d :: ds =>
    let step := w.write fs d
    match step.1 with
    | Except.error e => (Except.error e, step.2.1, step.2.2)
    | Except.ok _ => writeAll step.2.1 step.2.2 ds

/-- Read `n` records, each with a fresh empty `buf`, collecting the records
in order and stopping at the first error. -/
def readAll (r : EfficientFileReader) (fs : FS) :
    Nat → Except Err (List (List Nat)) × EfficientFileReader
  | 0 => (Except.ok [], r)
  | n + 1 =>
    let step := r.read_line fs []
    match step.1 with
    | Except.error e => (Except.error e, step.2.1)
    | Except.ok _ =>
      let rest := readAll step.2.1 fs n
      match rest.1 with
      | Except.error e => (Except.error e, rest.2)
      | Except.ok ds => (Except.ok (step.2.2 :: ds), rest.2)

/-- Construct a writer on a fresh filesystem and write `rs`; `none` on any
error. -/
def runWriter (b d : String) (N : Nat) (rs : List (List Nat)) :
    Option (EfficientFileWriter × FS) :=
  match EfficientFileWriter.new b N d FS.empty with
  | (Except.ok w, fs) =>
    match writeAll w fs rs with
    | (Except.ok _, w1, fs1) => some (w1, fs1)
    | _ => none
  | _ => none

/-- Like `runWriter`, followed by a `flush`. -/
def runWriterFlush (b d : String) (N : Nat) (rs : List (List Nat)) :
    Option (EfficientFileWriter × FS) :=
  match runWriter b d N rs with
  | none => none
  | some (w, fs) =>
    match w.flush fs with
    | (Except.ok _, w1, fs1) => some (w1, fs1)
    | _ => none

/-- Full pipeline: write `rs` with parameters `(b, N, d)` on a fresh
filesystem, flush, construct a reader with the identical parameters, and
read back `rs.length` records; `none` on any error. -/
def roundTrip (b d : String) (N : Nat) (rs : List (List Nat)) :
    Option (List (List Nat)) :=
  match runWriterFlush b d N rs with
  | none => none
  | some (_, fs) =>
    match EfficientFileReader.new b N d fs with
    | (Except.ok r, fs1) =>
      match readAll r fs1 rs.length with
      | (Except.ok out, _) => some out
      | _ => none
    | _ => none

/-- On-disk framing of a record sequence: each record followed by the
delimiter byte. -/
def encode (rs : List (List Nat)) : List Nat :=
  (rs.map (fun r => r ++ [10])).flatten

/-- Records `[j*N, j*N + N)` of `rs`, framed: the full content of segment
number `j*N` once everything is flushed. -/
def segFileContent (rs : List (List Nat)) (N j : Nat) : List Nat :=
  encode ((rs.drop (j * N)).take N)

/-- File table after writing `rs` (no explicit flush): one segment file per
boundary `0, N, ..., (rs.length / N) * N`; every segment before the current
one was flushed when its successor was created, the current one is still
empty on disk. -/
def liveFiles (dir base : String) (N : Nat) (rs : List (List Nat)) :
    List (String × List Nat) :=
  (List.range (rs.length / N + 1)).map
    (fun j => (segPath dir base (j * N),
      if j < rs.length / N then segFileContent rs N j else []))

/-- File table after writing `rs` and flushing. -/
def flushedFiles (dir base : String) (N : Nat) (rs : List (List Nat)) :
    List (String × List Nat) :=
  (List.range (rs.length / N + 1)).map
    (fun j => (segPath dir base (j * N), segFileContent rs N j))

/-- Writer state after a fresh construction followed by writing `rs`. -/
def writerInv (base dir : String) (N : Nat) (rs : List (List Nat)) :
    EfficientFileWriter :=
  ⟨base, dir, N, rs.length, rs.length - rs.length % N,
    encode (rs.drop (rs.length - rs.length % N))⟩

/-- Filesystem after a fresh construction followed by writing `rs`. -/
def writerFS (base dir : String) (N : Nat) (rs : List (List Nat)) : FS :=
  ⟨[dir], liveFiles dir base N rs, []⟩

/-- Filesystem after additionally flushing. -/
def flushedFS (base dir : String) (N : Nat) (rs : List (List Nat)) : FS :=
  ⟨[dir], flushedFiles dir base N rs, []⟩

/-- Reader state after a fresh construction on the flushed archive of `rs`
followed by reading `i` records. -/
def readerInv (base dir : String) (N : Nat) (rs : List (List Nat)) (i : Nat) :
    EfficientFileReader :=
  ⟨base, dir, N, i, i - i % N, encode ((rs.drop i).take (N - i % N))⟩

/-! Association-list lemmas. -/

theorem AList.get?_set_self (l : List (String × List Nat)) (p : String) (v : List Nat) :
    AList.get? (AList.set l p v) p = some v := by
  induction l with
  | nil => simp [AList.set, AList.get?]
  | cons e es ih =>
    by_cases h : e.1 = p
    · simp [AList.set, AList.get?, h]
    · simp [AList.set, AList.get?, h, ih]

theorem AList.get?_set_ne (l : List (String × List Nat)) (p q : String) (v : List Nat)
    (h : p ≠ q) : AList.get? (AList.set l q v) p = AList.get? l p := by
  have h' : ¬ (q = p) := fun e => h e.symm
  induction l with
  | nil => simp [AList.set, AList.get?, h']
  | cons e es ih =>
    by_cases he : e.1 = q
    · simp [AList.set, AList.get?, he, h']
    · simp [AList.set, AList.get?, he, ih]

theorem AList.set_eq_of_get? (l : List (String × List Nat)) (p : String) (v : List Nat)
    (h : AList.get? l p = some v) : AList.set l p v = l := by
  induction l with
  | nil => simp [AList.get?] at h
  | cons e es ih =>
    by_cases he : e.1 = p
    · simp only [AList.get?, if_pos he] at h
      obtain ⟨e1, e2⟩ := e
      simp only at he
      injection h with h
      simp [AList.set, he, ← h]
    · simp only [AList.get?, if_neg he] at h
      simp [AList.set, he, ih h]

theorem AList.get?_append_left (l₁ l₂ : List (String × List Nat)) (p : String)
    (v : List Nat) (h : AList.get? l₁ p = some v) :
    AList.get? (l₁ ++ l₂) p = some v := by
  induction l₁ with
  | nil => simp [AList.get?] at h
  | cons e es ih =>
    by_cases he : e.1 = p
    · simp only [AList.get?, if_pos he] at h
      simp [AList.get?, he, h]
    · simp only [AList.get?, if_neg he] at h
      simp [AList.get?, he, ih h]

theorem AList.set_append_left (l₁ l₂ : List (String × List Nat)) (p : String)
    (v w : List Nat) (h : AList.get? l₁ p = some w) :
    AList.set (l₁ ++ l₂) p v = AList.set l₁ p v ++ l₂ := by
  induction l₁ with
  | nil => simp [AList.get?] at h
  | cons e es ih =>
    by_cases he : e.1 = p
    · simp [AList.set, he]
    · simp only [AList.get?, if_neg he] at h
      simp [AList.set, he, ih h]

theorem AList.get?_map (keys : List Nat) (f : Nat → String × List Nat) (j : Nat)
    (hj : j ∈ keys) (hinj : ∀ a ∈ keys, (f a).1 = (f j).1 → a = j) :
    AList.get? (keys.map f) (f j).1 = some (f j).2 := by
  induction keys with
  | nil => cases hj
  | cons a as ih =>
    by_cases h : (f a).1 = (f j).1
    · have ha : a = j := hinj a (List.mem_cons_self a as) h
      subst ha
      simp [AList.get?]
    · have hj' : j ∈ as := by
        rcases List.mem_cons.mp hj with h' | h'
        · exact absurd (by rw [h']) h
        · exact h'
      simp only [List.map_cons, AList.get?, if_neg h]
      exact ih hj' (fun a' ha' => hinj a' (List.mem_cons_of_mem _ ha'))

theorem AList.set_map (keys : List Nat) (f : Nat → String × List Nat) (j : Nat) (v : List Nat)
    (hj : j ∈ keys) (hnd : keys.Nodup)
    (hinj : ∀ a ∈ keys, (f a).1 = (f j).1 → a = j) :
    AList.set (keys.map f) (f j).1 v =
      keys.map (fun a => if a = j then ((f j).1, v) else f a) := by
  induction keys with
  | nil => cases hj
  | cons a as ih =>
    rcases List.nodup_cons.mp hnd with ⟨hna, hnd'⟩
    by_cases h : (f a).1 = (f j).1
    · have ha : a = j := hinj a (List.mem_cons_self a as) h
      subst ha
      simp only [List.map_cons, AList.set, if_pos rfl]
      refine congrArg₂ List.cons (by simp) ?_
      symm
      apply List.map_congr_left
      intro b hb
      have hbj : ¬ b = a := fun e => hna (e ▸ hb)
      simp [hbj]
    · have ha : ¬ a = j := fun e => h (by rw [e])
      have hj' : j ∈ as := by
        rcases List.mem_cons.mp hj with h' | h'
        · exact absurd h'.symm ha
        · exact h'
      simp only [List.map_cons, AList.set, if_neg h, if_neg ha]
      refine congrArg₂ List.cons rfl ?_
      exact ih hj' hnd' (fun x hx => hinj x (List.mem_cons_of_mem _ hx))

theorem AList.set_map_notMem (keys : List Nat) (f : Nat → String × List Nat)
    (q : String) (v : List Nat) (hq : ∀ a ∈ keys, (f a).1 ≠ q) :
    AList.set (keys.map f) q v = keys.map f ++ [(q, v)] := by
  induction keys with
  | nil => simp [AList.set]
  | cons a as ih =>
    simp only [List.map_cons, AList.set,
      if_neg (hq a (List.mem_cons_self a as)), List.cons_append]
    exact congrArg₂ List.cons rfl (ih (fun x hx => hq x (List.mem_cons_of_mem _ hx)))

/-! Injectivity of the decimal rendering used by the naming scheme. -/

def decDigitVal (c : Char) : Nat := c.toNat - 48

def parseDec (l : List Char) : Nat :=
  l.foldl (fun a c => 10 * a + decDigitVal c) 0

theorem decDigitVal_digitChar : ∀ d, d < 10 → decDigitVal (Nat.digitChar d) = d := by decide

theorem parseDec_append_singleton (l : List Char) (c : Char) :
    parseDec (l ++ [c]) = 10 * parseDec l + decDigitVal c := by
  simp [parseDec, List.foldl_append]

theorem toDigitsCore_shift (f : Nat) : ∀ (n : Nat) (ds : List Char),
    Nat.toDigitsCore 10 f n ds = Nat.toDigitsCore 10 f n [] ++ ds := by
  induction f with
  | zero => intro n ds; simp [Nat.toDigitsCore]
  | succ f ih =>
    intro n ds
    simp only [Nat.toDigitsCore]
    by_cases h : n / 10 = 0
    · simp [h]
    · rw [if_neg h, if_neg h, ih (n / 10) [Nat.digitChar (n % 10)],
        ih (n / 10) (Nat.digitChar (n % 10) :: ds), List.append_assoc]
      rfl

theorem parseDec_toDigitsCore (f : Nat) : ∀ n, n < f →
    parseDec (Nat.toDigitsCore 10 f n []) = n := by
  induction f with
  | zero => intro n h; omega
  | succ f ih =>
    intro n h
    simp only [Nat.toDigitsCore]
    by_cases h0 : n / 10 = 0
    · rw [if_pos h0]
      have hn : n < 10 := by
        rcases Nat.lt_or_ge n 10 with h' | h'
        · exact h'
        · exact absurd h0 (by
            have h1 : 1 ≤ n / 10 := (Nat.le_div_iff_mul_le (by norm_num)).mpr (by omega)
            omega)
      have hmod : n % 10 = n := Nat.mod_eq_of_lt hn
      have hp : parseDec [Nat.digitChar (n % 10)] = decDigitVal (Nat.digitChar (n % 10)) := by
        simp [parseDec]
      rw [hp, hmod]
      exact decDigitVal_digitChar n hn
    · have hpos : 0 < n := by
        rcases Nat.eq_zero_or_pos n with h' | h'
        · subst h'; simp at h0
        · exact h'
      have hlt : n / 10 < f := by
        have h1 : n / 10 < n := Nat.div_lt_self hpos (by norm_num)
        omega
      rw [if_neg h0, toDigitsCore_shift, parseDec_append_singleton, ih (n / 10) hlt,
        decDigitVal_digitChar (n % 10) (Nat.mod_lt _ (by norm_num))]
      omega

theorem parseDec_repr (n : Nat) : parseDec (Nat.repr n).data = n := by
  show parseDec ((Nat.toDigits 10 n).asString).data = n
  show parseDec (Nat.toDigitsCore 10 (n + 1) n []) = n
  exact parseDec_toDigitsCore (n + 1) n (Nat.lt_succ_self n)

theorem repr_inj {m n : Nat} (h : Nat.repr m = Nat.repr n) : m = n := by
  have hm := parseDec_repr m
  rw [h, parseDec_repr n] at hm
  exact hm.symm

theorem string_ext {s t : String} (h : s.data = t.data) : s = t := by
  cases s; cases t; exact congrArg String.mk h

theorem segName_inj (base : String) {m n : Nat} (h : segName base m = segName base n) :
    m = n := by
  apply repr_inj
  have hd := congrArg String.data h
  simp only [segName, String.data_append] at hd
  exact string_ext (List.append_cancel_left hd)

theorem segPath_inj (dir base : String) {m n : Nat} (h : segPath dir base m = segPath dir base n) :
    m = n := by
  apply segName_inj base
  have hd := congrArg String.data h
  simp only [segPath, String.data_append] at hd
  exact string_ext (List.append_cancel_left hd)

theorem segPath_ne (dir base : String) {m n : Nat} (h : m ≠ n) :
    segPath dir base m ≠ segPath dir base n :=
  fun e => h (segPath_inj dir base e)

/-! Arithmetic facts about the rotation boundary. -/

theorem sub_mod_eq_div_mul (k N : Nat) : k - k % N = k / N * N := by
  have e := Nat.div_add_mod k N
  have e' : k / N * N = N * (k / N) := Nat.mul_comm _ _
  omega

theorem rot_arith (N k : Nat) (hN : 0 < N) (h : (k + 1) % N = 0) :
    k % N = N - 1 ∧ (k + 1) / N = k / N + 1 ∧ k + 1 = (k / N + 1) * N := by
  have hdvd : N ∣ (k + 1) := (Nat.dvd_iff_mod_eq_zero).mpr h
  have hsd := Nat.succ_div k N
  rw [if_pos hdvd] at hsd
  have e1 := Nat.div_add_mod (k + 1) N
  have e2 := Nat.div_add_mod k N
  rw [hsd, h] at e1
  have e1' : N * (k / N) + N = k + 1 := by
    have : N * (k / N + 1) = N * (k / N) + N := by ring
    omega
  have e3 : (k / N + 1) * N = N * (k / N) + N := by ring
  refine ⟨by omega, hsd, by omega⟩

theorem norot_arith (N k : Nat) (hN : 0 < N) (h : (k + 1) % N ≠ 0) :
    (k + 1) % N = k % N + 1 ∧ (k + 1) / N = k / N := by
  have hdvd : ¬ N ∣ (k + 1) := fun hd => h ((Nat.dvd_iff_mod_eq_zero).mp hd)
  have hsd := Nat.succ_div k N
  rw [if_neg hdvd] at hsd
  have hsd2 : (k + 1) / N = k / N := by omega
  have e1 := Nat.div_add_mod (k + 1) N
  have e2 := Nat.div_add_mod k N
  rw [hsd2] at e1
  exact ⟨by omega, by omega⟩

/-! Facts about framing, line splitting, `String::pop` and the UTF-8 automaton. -/

theorem encode_append (l₁ l₂ : List (List Nat)) :
    encode (l₁ ++ l₂) = encode l₁ ++ encode l₂ := by
  simp [encode]

theorem encode_cons (a : List Nat) (l : List (List Nat)) :
    encode (a :: l) = a ++ 10 :: encode l := by
  simp [encode]

theorem encode_singleton (a : List Nat) : encode [a] = a ++ [10] := by
  simp [encode]

theorem readUntilNl_mid (a s : List Nat) (h : 10 ∉ a) :
    readUntilNl (a ++ 10 :: s) = (a ++ [10], s) := by
  induction a with
  | nil => simp [readUntilNl]
  | cons b bs ih =>
    have hb : ¬ b = 10 := fun e => h (by simp [e])
    have ih' := ih (fun hm => h (List.mem_cons_of_mem _ hm))
    simp [readUntilNl, hb, ih']

theorem readUntilNl_noDelim (a : List Nat) (h : 10 ∉ a) :
    readUntilNl a = (a, []) := by
  induction a with
  | nil => rfl
  | cons b bs ih =>
    have hb : ¬ b = 10 := fun e => h (by simp [e])
    have ih' := ih (fun hm => h (List.mem_cons_of_mem _ hm))
    simp [readUntilNl, hb, ih']

theorem strPop_append_delim (l : List Nat) : strPop (l ++ [10]) = l := by
  have hc : isContByte 10 = false := rfl
  simp [strPop, List.reverse_append, List.dropWhile, hc]

theorem utf8Run_append (st : Nat) (l₁ l₂ : List Nat) :
    utf8Run st (l₁ ++ l₂) = utf8Run (utf8Run st l₁) l₂ :=
  List.foldl_append utf8Step st l₁ l₂

theorem validUtf8_append_delim (l : List Nat) (h : validUtf8 l = true) :
    validUtf8 (l ++ [10]) = true := by
  simp only [validUtf8, decide_eq_true_eq] at h ⊢
  rw [utf8Run_append, h]
  rfl

/-! Closed forms for the file table as records are written. -/

theorem segFileContent_frozen (p : List (List Nat)) (r : List Nat) (N j : Nat)
    (h : j * N + N ≤ p.length) :
    segFileContent (p ++ [r]) N j = segFileContent p N j := by
  unfold segFileContent
  rw [List.drop_append_of_le_length (by omega)]
  rw [List.take_append_of_le_length (by rw [List.length_drop]; omega)]

theorem segFileContent_boundary (p : List (List Nat)) (r : List Nat) (N : Nat) (hN : 0 < N)
    (hrot : (p.length + 1) % N = 0) :
    segFileContent (p ++ [r]) N (p.length / N) =
      encode (p.drop (p.length - p.length % N)) ++ r ++ [10] := by
  obtain ⟨hmod, hdiv, hmul⟩ := rot_arith N p.length hN hrot
  have hsub := sub_mod_eq_div_mul p.length N
  have hmle := Nat.mod_le p.length N
  unfold segFileContent
  rw [← hsub]
  rw [List.drop_append_of_le_length (Nat.sub_le _ _)]
  have hlen : (p.drop (p.length - p.length % N) ++ [r]).length = N := by
    rw [List.length_append, List.length_drop]
    simp only [List.length_singleton]
    omega
  rw [List.take_of_length_le (le_of_eq hlen)]
  rw [encode_append, encode_singleton, ← List.append_assoc]

theorem mul_le_of_lt_div {j k N : Nat} (h : j < k / N) : j * N + N ≤ k := by
  have h1 : j + 1 ≤ k / N := h
  have h2 : (j + 1) * N ≤ k / N * N := Nat.mul_le_mul_right N h1
  have h3 : k / N * N ≤ k := Nat.div_mul_le_self _ _
  have h4 : (j + 1) * N = j * N + N := by ring
  omega

theorem liveFiles_norot (dir base : String) (N : Nat) (hN : 0 < N) (p : List (List Nat))
    (r : List Nat) (hrot : (p.length + 1) % N ≠ 0) :
    liveFiles dir base N (p ++ [r]) = liveFiles dir base N p := by
  obtain ⟨hmod, hdiv⟩ := norot_arith N p.length hN hrot
  unfold liveFiles
  rw [List.length_append, List.length_singleton, hdiv]
  apply List.map_congr_left
  intro j hj
  by_cases hjc : j < p.length / N
  · simp only [if_pos hjc]
    rw [segFileContent_frozen p r N j (mul_le_of_lt_div hjc)]
  · simp [hjc]

theorem liveFiles_rot (dir base : String) (N : Nat) (hN : 0 < N) (p : List (List Nat))
    (r : List Nat) (hrot : (p.length + 1) % N = 0) :
    liveFiles dir base N (p ++ [r]) =
      (List.range (p.length / N + 1)).map
        (fun j => (segPath dir base (j * N),
          if j = p.length / N then encode (p.drop (p.length - p.length % N)) ++ r ++ [10]
          else if j < p.length / N then segFileContent p N j else [])) ++
      [(segPath dir base (p.length + 1), [])] := by
  obtain ⟨hmod, hdiv, hmul⟩ := rot_arith N p.length hN hrot
  unfold liveFiles
  rw [List.length_append, List.length_singleton, hdiv]
  rw [List.range_succ (p.length / N + 1), List.map_append]
  refine congrArg₂ List.append ?_ ?_
  · apply List.map_congr_left
    intro j hj
    have hjlt : j < p.length / N + 1 := List.mem_range.mp hj
    by_cases hje : j = p.length / N
    · subst hje
      rw [if_pos (by omega), if_pos rfl]
      exact congrArg₂ Prod.mk rfl (segFileContent_boundary p r N hN hrot)
    · have hjc : j < p.length / N := by omega
      rw [if_pos (by omega), if_neg hje, if_pos hjc]
      exact congrArg₂ Prod.mk rfl (segFileContent_frozen p r N j (mul_le_of_lt_div hjc))
  · simp only [List.map_cons, List.map_nil]
    rw [if_neg (by omega), ← hmul]


theorem encode_nil : encode [] = [] := rfl

theorem liveKey_inj (dir base : String) (N : Nat) (hN : 0 < N) :
    ∀ a b : Nat, segPath dir base (a * N) = segPath dir base (b * N) → a = b := by
  intro a b h
  exact Nat.eq_of_mul_eq_mul_right hN (segPath_inj dir base h)

theorem write_step (base dir : String) (N : Nat) (hN : 0 < N) (p : List (List Nat)) (r : List Nat) :
    EfficientFileWriter.write (writerInv base dir N p) (writerFS base dir N p) r =
      (Except.ok (r.length + 1), writerInv base dir N (p ++ [r]),
        writerFS base dir N (p ++ [r])) := by
  have hNne : ¬ (N = 0) := by omega
  have hsub := sub_mod_eq_div_mul p.length N
  have hmle := Nat.mod_le p.length N
  by_cases hrot : (p.length + 1) % N = 0
  · obtain ⟨hmod, hdiv, hmul⟩ := rot_arith N p.length hN hrot
    simp only [EfficientFileWriter.write, writerInv, writerFS, if_neg hNne]
    rw [if_pos hrot]
    rw [if_neg (List.not_mem_nil _)]
    simp only [FS.createFile, FS.appendFile, FS.readD, FS.readFile]
    rw [if_neg (List.not_mem_nil _)]
    simp only [List.length_append, List.length_singleton]
    rw [liveFiles_rot dir base N hN p r hrot]
    have hdropnil : List.drop (p.length + 1) (p ++ [r]) = [] := by
      apply List.drop_eq_nil_of_le
      simp
    simp only [hrot, Nat.sub_zero, hdropnil, encode_nil, hsub]
    simp only [liveFiles]
    have hqnew : ∀ a ∈ List.range (p.length / N + 1),
        ((fun j => (segPath dir base (j * N),
          if j < p.length / N then segFileContent p N j else [])) a).1
          ≠ segPath dir base (p.length + 1) := by
      intro a ha
      simp only
      apply segPath_ne
      have hlt : a < p.length / N + 1 := List.mem_range.mp ha
      have h1 : a * N ≤ p.length / N * N := Nat.mul_le_mul_right N (by omega)
      have h2 : p.length / N * N ≤ p.length := Nat.div_mul_le_self _ _
      omega
    rw [AList.set_map_notMem _ _ _ _ hqnew]
    have hj : p.length / N ∈ List.range (p.length / N + 1) := List.mem_range.mpr (by omega)
    have hinj : ∀ a ∈ List.range (p.length / N + 1),
        ((fun j => (segPath dir base (j * N),
          if j < p.length / N then segFileContent p N j else [])) a).1 =
        ((fun j => (segPath dir base (j * N),
          if j < p.length / N then segFileContent p N j else [])) (p.length / N)).1 →
        a = p.length / N := by
      intro a ha hfa
      simp only at hfa
      exact liveKey_inj dir base N hN a (p.length / N) hfa
    have hget := AList.get?_map (List.range (p.length / N + 1)) _ (p.length / N) hj hinj
    simp only [lt_irrefl, if_false] at hget
    have hget2 := AList.get?_append_left _ [(segPath dir base (p.length + 1), [])] _ _ hget
    rw [hget2]
    simp only [Option.getD_some, List.nil_append]
    rw [AList.set_append_left _ _ _ _ _ hget]
    have hset := AList.set_map (List.range (p.length / N + 1)) _ (p.length / N)
      (encode (List.drop (p.length / N * N) p) ++ r ++ [10]) hj (List.nodup_range _) hinj
    simp only at hset
    rw [hset]
    refine congrArg₂ Prod.mk rfl (congrArg₂ Prod.mk rfl ?_)
    refine congrArg (fun l => ({ dirs := [dir], files := l, failing := [] } : FS)) ?_
    refine congrArg₂ List.append ?_ rfl
    apply List.map_congr_left
    intro a ha
    by_cases hae : a = p.length / N
    · subst hae
      simp
    · simp [hae]
  · obtain ⟨hmod, hdiv⟩ := norot_arith N p.length hN hrot
    simp only [EfficientFileWriter.write, writerInv, writerFS, if_neg hNne]
    rw [if_neg hrot]
    have hlen : (p ++ [r]).length = p.length + 1 := by simp
    rw [hlen, liveFiles_norot dir base N hN p r hrot]
    have hcs : p.length + 1 - (p.length + 1) % N = p.length - p.length % N := by omega
    rw [hcs]
    have hdrop : List.drop (p.length - p.length % N) (p ++ [r]) =
        List.drop (p.length - p.length % N) p ++ [r] :=
      List.drop_append_of_le_length (Nat.sub_le _ _)
    rw [hdrop, encode_append, encode_singleton, ← List.append_assoc]


theorem writeAll_ok (base dir : String) (N : Nat) (hN : 0 < N) (rs : List (List Nat)) :
    ∀ p : List (List Nat),
      writeAll (writerInv base dir N p) (writerFS base dir N p) rs =
        (Except.ok (), writerInv base dir N (p ++ rs), writerFS base dir N (p ++ rs)) := by
  induction rs with
  | nil => intro p; simp [writeAll]
  | cons r rs ih =>
    intro p
    simp only [writeAll, write_step base dir N hN p r]
    rw [ih (p ++ [r])]
    have hl : p ++ [r] ++ rs = p ++ r :: rs := by simp
    rw [hl]

theorem writer_new_spec (base dir : String) (N : Nat) :
    EfficientFileWriter.new base N dir FS.empty =
      (Except.ok (writerInv base dir N []), writerFS base dir N []) := by
  simp [EfficientFileWriter.new, FS.empty, FS.createDirAll, FS.createFile, writerInv, writerFS,
    liveFiles, AList.set, segFileContent, encode, Nat.zero_mul]
  have h1 : List.range 1 = [0] := rfl
  rw [h1]
  simp [Nat.zero_mul]

theorem flush_spec (base dir : String) (N : Nat) (hN : 0 < N) (rs : List (List Nat)) :
    EfficientFileWriter.flush (writerInv base dir N rs) (writerFS base dir N rs) =
      (Except.ok (), { writerInv base dir N rs with buffer := [] },
        flushedFS base dir N rs) := by
  have hsub := sub_mod_eq_div_mul rs.length N
  simp only [EfficientFileWriter.flush, writerInv, writerFS, flushedFS]
  rw [if_neg (List.not_mem_nil _)]
  simp only [FS.appendFile, FS.readD, FS.readFile, hsub]
  simp only [liveFiles, flushedFiles]
  have hj : rs.length / N ∈ List.range (rs.length / N + 1) := List.mem_range.mpr (Nat.lt_succ_self _)
  have hinj : ∀ a ∈ List.range (rs.length / N + 1),
      ((fun j => (segPath dir base (j * N),
        if j < rs.length / N then segFileContent rs N j else [])) a).1 =
      ((fun j => (segPath dir base (j * N),
        if j < rs.length / N then segFileContent rs N j else [])) (rs.length / N)).1 →
      a = rs.length / N := by
    intro a ha hfa
    simp only at hfa
    exact liveKey_inj dir base N hN a (rs.length / N) hfa
  have hget := AList.get?_map (List.range (rs.length / N + 1)) _ (rs.length / N) hj hinj
  simp only [lt_irrefl, if_false] at hget
  rw [hget]
  simp only [Option.getD_some, List.nil_append]
  have hset := AList.set_map (List.range (rs.length / N + 1)) _ (rs.length / N)
    (encode (List.drop (rs.length / N * N) rs)) hj (List.nodup_range _) hinj
  simp only at hset
  rw [hset]
  refine congrArg₂ Prod.mk rfl (congrArg₂ Prod.mk rfl ?_)
  refine congrArg (fun l => ({ dirs := [dir], files := l, failing := [] } : FS)) ?_
  apply List.map_congr_left
  intro a ha
  have hlt := List.mem_range.mp ha
  by_cases hae : a = rs.length / N
  · subst hae
    have hml := Nat.mod_lt rs.length hN
    have hmle := Nat.mod_le rs.length N
    simp only [if_pos rfl]
    refine congrArg₂ Prod.mk rfl ?_
    unfold segFileContent
    have hlen2 : (List.drop (rs.length / N * N) rs).length ≤ N := by
      rw [List.length_drop, ← hsub]
      omega
    rw [List.take_of_length_le hlen2]
  · have halt : a < rs.length / N := by omega
    simp [hae, halt]

theorem reader_new_spec (base dir : String) (N : Nat) (hN : 0 < N) (rs : List (List Nat)) :
    EfficientFileReader.new base N dir (flushedFS base dir N rs) =
      (Except.ok (readerInv base dir N rs 0), flushedFS base dir N rs) := by
  simp only [EfficientFileReader.new, flushedFS]
  rw [if_neg (List.not_mem_nil _)]
  have hdd : FS.createDirAll ⟨[dir], flushedFiles dir base N rs, []⟩ dir =
      ⟨[dir], flushedFiles dir base N rs, []⟩ := by
    simp [FS.createDirAll]
  rw [hdd]
  rw [if_neg (List.not_mem_nil _)]
  simp only [FS.readFile, flushedFiles]
  have hj : 0 ∈ List.range (rs.length / N + 1) := List.mem_range.mpr (Nat.succ_pos _)
  have hinj : ∀ a ∈ List.range (rs.length / N + 1),
      ((fun j => (segPath dir base (j * N), segFileContent rs N j)) a).1 =
      ((fun j => (segPath dir base (j * N), segFileContent rs N j)) 0).1 →
      a = 0 := by
    intro a ha hfa
    simp only at hfa
    exact liveKey_inj dir base N hN a 0 hfa
  have hget := AList.get?_map (List.range (rs.length / N + 1)) _ 0 hj hinj
  simp only [Nat.zero_mul] at hget
  rw [hget]
  refine congrArg₂ Prod.mk ?_ rfl
  refine congrArg Except.ok ?_
  simp [readerInv, segFileContent]


theorem read_step (base dir : String) (N : Nat) (hN : 0 < N) (rs : List (List Nat)) (i : Nat)
    (hi : i < rs.length)
    (hrec : ∀ t ∈ rs, 10 ∉ t ∧ validUtf8 t = true) :
    EfficientFileReader.read_line (readerInv base dir N rs i) (flushedFS base dir N rs) [] =
      (Except.ok (rs[i].length + 1), readerInv base dir N rs (i + 1), rs[i]) := by
  have hNne : ¬ (N = 0) := by omega
  have himod : i % N < N := Nat.mod_lt i hN
  obtain ⟨ht10, htu⟩ := hrec rs[i] (List.getElem_mem hi)
  have hdrop : rs.drop i = rs[i] :: rs.drop (i + 1) := List.drop_eq_getElem_cons hi
  have hm1 : N - i % N = (N - i % N - 1) + 1 := by omega
  have hstream : encode ((rs.drop i).take (N - i % N)) =
      rs[i] ++ 10 :: encode ((rs.drop (i + 1)).take (N - i % N - 1)) := by
    rw [hdrop]
    conv_lhs => rw [hm1]
    rw [List.take_succ_cons, encode_cons]
  have hread : readUntilNl (encode ((rs.drop i).take (N - i % N))) =
      (rs[i] ++ [10], encode ((rs.drop (i + 1)).take (N - i % N - 1))) := by
    rw [hstream]
    exact readUntilNl_mid _ _ ht10
  have hvalid : validUtf8 (rs[i] ++ [10]) = true := validUtf8_append_delim _ htu
  simp only [EfficientFileReader.read_line, readerInv, flushedFS, hread]
  rw [if_neg (by simp [hvalid])]
  simp only [List.nil_append, strPop_append_delim, List.length_append, List.length_singleton]
  rw [if_neg hNne]
  by_cases hrot : (i + 1) % N = 0
  · obtain ⟨hmod, hdiv, hmul⟩ := rot_arith N i hN hrot
    rw [if_pos hrot]
    rw [if_neg (List.not_mem_nil _)]
    simp only [FS.readFile, flushedFiles]
    have hj : i / N + 1 ∈ List.range (rs.length / N + 1) := by
      apply List.mem_range.mpr
      have h1 : (i + 1) / N ≤ rs.length / N := Nat.div_le_div_right (by omega)
      omega
    have hinj : ∀ a ∈ List.range (rs.length / N + 1),
        ((fun j => (segPath dir base (j * N), segFileContent rs N j)) a).1 =
        ((fun j => (segPath dir base (j * N), segFileContent rs N j)) (i / N + 1)).1 →
        a = i / N + 1 := by
      intro a ha hfa
      simp only at hfa
      exact liveKey_inj dir base N hN a (i / N + 1) hfa
    have hget := AList.get?_map (List.range (rs.length / N + 1)) _ (i / N + 1) hj hinj
    simp only [← hmul] at hget
    rw [hget]
    refine congrArg₂ Prod.mk rfl (congrArg₂ Prod.mk ?_ rfl)
    have hsub1 : i + 1 - (i + 1) % N = i + 1 := by omega
    have htake : N - (i + 1) % N = N := by omega
    rw [hsub1, htake]
    simp only [segFileContent, ← hmul]
  · obtain ⟨hmod, hdiv⟩ := norot_arith N i hN hrot
    rw [if_neg hrot]
    refine congrArg₂ Prod.mk rfl (congrArg₂ Prod.mk ?_ rfl)
    have hsub1 : i + 1 - (i + 1) % N = i - i % N := by omega
    have htake : N - (i + 1) % N = N - i % N - 1 := by omega
    rw [hsub1, htake]

theorem readAll_spec (base dir : String) (N : Nat) (hN : 0 < N) (rs : List (List Nat))
    (hrec : ∀ t ∈ rs, 10 ∉ t ∧ validUtf8 t = true) :
    ∀ (n i : Nat), i + n = rs.length →
      readAll (readerInv base dir N rs i) (flushedFS base dir N rs) n =
        (Except.ok (rs.drop i), readerInv base dir N rs (i + n)) := by
  intro n
  induction n with
  | zero =>
    intro i h
    have hd : rs.drop i = [] := by
      have : i = rs.length := by omega
      rw [this]
      exact List.drop_length rs
    simp [readAll, hd]
  | succ n ih =>
    intro i h
    have hi : i < rs.length := by omega
    simp only [readAll, read_step base dir N hN rs i hi hrec]
    rw [ih (i + 1) (by omega)]
    have hd : rs[i] :: rs.drop (i + 1) = rs.drop i := (List.drop_eq_getElem_cons hi).symm
    have hidx : i + 1 + n = i + (n + 1) := by omega
    simp only [hd, hidx]


theorem FS.readD_appendFile_self (fs : FS) (p : String) (v : List Nat) :
    (fs.appendFile p v).readD p = fs.readD p ++ v := by
  simp [FS.appendFile, FS.readD, FS.readFile, AList.get?_set_self]

theorem FS.readD_createFile_ne (fs : FS) (p q : String) (h : p ≠ q) :
    (fs.createFile q).readD p = fs.readD p := by
  simp [FS.createFile, FS.readD, FS.readFile, AList.get?_set_ne _ _ _ _ h]

/-- C4: for every `N > 0`, writing exactly `N` records with
`itemsPerSegment = N` on a fresh filesystem produces exactly two segment
files — `base.0` holding all `N` framed records and `base.N` empty, the
latter created by the write call of the `N`-th record — and
`currentSegmentName()` returns `base.N`. -/
theorem C4_rotation_boundary (b d : String) (N : Nat) (rs : List (List Nat))
    (hN : 0 < N) (hlen : rs.length = N) :
    ∃ w fs, runWriter b d N rs = some (w, fs) ∧
      fs.files = [(segPath d b 0, encode rs), (segPath d b N, [])] ∧
      fs.dirs = [d] ∧
      w.current_file_name = Except.ok (segName b N) := by
  have hw := writeAll_ok b d N hN rs []
  simp only [List.nil_append] at hw
  refine ⟨writerInv b d N rs, writerFS b d N rs, ?_, ?_, rfl, ?_⟩
  · simp only [runWriter, writer_new_spec, hw]
  · simp only [writerFS, liveFiles, hlen, Nat.div_self hN]
    have h2 : List.range 2 = [0, 1] := rfl
    rw [h2]
    simp [segFileContent, Nat.zero_mul, Nat.one_mul,
      List.take_of_length_le (le_of_eq hlen)]
  · simp only [writerInv, EfficientFileWriter.current_file_name]
    rw [if_neg (by omega : ¬ N = 0)]
    rw [hlen, Nat.mod_self, Nat.sub_zero]

/-- C7: for every `N > 0`, writing `N - 1` records with `itemsPerSegment =
N` on a fresh filesystem and flushing produces exactly one file `base.0`
containing the `N - 1` framed records, and `currentSegmentName()` returns
`base.0` — no rotation occurs before the boundary. -/
theorem C7_sub_boundary (b d : String) (N : Nat) (rs : List (List Nat))
    (hN : 0 < N) (hlen : rs.length = N - 1) :
    ∃ w fs, runWriterFlush b d N rs = some (w, fs) ∧
      fs.files = [(segPath d b 0, encode rs)] ∧
      fs.dirs = [d] ∧
      w.current_file_name = Except.ok (segName b 0) := by
  have hw := writeAll_ok b d N hN rs []
  simp only [List.nil_append] at hw
  have hlt : rs.length < N := by omega
  have hdiv : rs.length / N = 0 := Nat.div_eq_of_lt hlt
  refine ⟨{ writerInv b d N rs with buffer := [] }, flushedFS b d N rs, ?_, ?_, rfl, ?_⟩
  · simp only [runWriterFlush, runWriter, writer_new_spec, hw, flush_spec b d N hN rs]
  · simp only [flushedFS, flushedFiles, hdiv]
    have h1 : List.range 1 = [0] := rfl
    rw [h1]
    simp [segFileContent, Nat.zero_mul, List.take_of_length_le (le_of_lt hlt)]
  · simp only [writerInv, EfficientFileWriter.current_file_name]
    rw [if_neg (by omega : ¬ N = 0)]
    have hm : rs.length % N = rs.length := Nat.mod_eq_of_lt hlt
    rw [hm, Nat.sub_self]

/-- C5: for every writer and reader state with a positive rotation
threshold, `current_file_name` is a pure function of the state equal to
`baseName ++ "." ++ (recordsProcessed - recordsProcessed % itemsPerSegment)`
rendered in decimal, and with zero records processed it returns
`baseName.0`. -/
theorem C5_naming_invariant (w : EfficientFileWriter) (r : EfficientFileReader)
    (hw : 0 < w.writes_per_file) (hr : 0 < r.writes_per_file) :
    w.current_file_name =
      Except.ok (segName w.base_name
        (w.writes_performed - w.writes_performed % w.writes_per_file)) ∧
    r.current_file_name =
      Except.ok (segName r.base_name
        (r.writes_performed - r.writes_performed % r.writes_per_file)) ∧
    (w.writes_performed = 0 →
      w.current_file_name = Except.ok (w.base_name ++ "." ++ "0")) ∧
    (r.writes_performed = 0 →
      r.current_file_name = Except.ok (r.base_name ++ "." ++ "0")) := by
  have hwne : ¬ w.writes_per_file = 0 := by omega
  have hrne : ¬ r.writes_per_file = 0 := by omega
  have h0 : Nat.repr 0 = "0" := by decide
  refine ⟨?_, ?_, ?_, ?_⟩
  · simp [EfficientFileWriter.current_file_name, hwne]
  · simp [EfficientFileReader.current_file_name, hrne]
  · intro hz
    simp [EfficientFileWriter.current_file_name, hwne, hz, segName, h0]
  · intro hz
    simp [EfficientFileReader.current_file_name, hrne, hz, segName, h0]

/-- C6: for every reachable writer state (open handle at the boundary
`writes_performed - writes_performed % writes_per_file`) whose current
segment path is not fault-injected, a `write` increments
`writes_performed` by one, returns `record length + 1` bytes on success,
propagates any underlying create failure as an I/O error, and appends
exactly the record bytes followed by one delimiter byte to the active
segment's stream (file content plus unflushed buffer). -/
theorem C6_write_postcondition (w : EfficientFileWriter) (fs : FS) (data : List Nat)
    (hN : 0 < w.writes_per_file)
    (hseg : w.current_seg = w.writes_performed - w.writes_performed % w.writes_per_file)
    (hold : segPath w.directory w.base_name w.current_seg ∉ fs.failing) :
    (w.write fs data).2.1.writes_performed = w.writes_performed + 1 ∧
    (∀ n, (w.write fs data).1 = Except.ok n → n = data.length + 1) ∧
    (∀ e, (w.write fs data).1 = Except.error e → e = Err.fault) ∧
    (w.write fs data).2.2.readD (segPath w.directory w.base_name w.current_seg) ++
        (if (w.write fs data).2.1.current_seg = w.current_seg
          then (w.write fs data).2.1.buffer else []) =
      fs.readD (segPath w.directory w.base_name w.current_seg) ++
        w.buffer ++ data ++ [10] := by
  have hNne : ¬ w.writes_per_file = 0 := by omega
  have hle : w.writes_performed % w.writes_per_file ≤ w.writes_performed :=
    Nat.mod_le _ _
  simp only [EfficientFileWriter.write, if_neg hNne]
  by_cases hrot : (w.writes_performed + 1) % w.writes_per_file = 0
  · rw [if_pos hrot]
    by_cases hfail :
        segPath w.directory w.base_name (w.writes_performed + 1) ∈ fs.failing
    · rw [if_pos hfail]
      refine ⟨rfl, ?_, ?_, ?_⟩
      · intro n h; cases h
      · intro e h; injection h with h; exact h.symm
      · simp [List.append_assoc]
    · rw [if_neg hfail]
      have hne : w.writes_performed + 1 ≠ w.current_seg := by omega
      have hpne : segPath w.directory w.base_name (w.writes_performed + 1) ≠
          segPath w.directory w.base_name w.current_seg :=
        segPath_ne _ _ hne
      rw [if_neg (by simpa [FS.createFile] using hold)]
      refine ⟨rfl, ?_, ?_, ?_⟩
      · intro n h; injection h with h; exact h.symm
      · intro e h; cases h
      · rw [if_neg (by simpa using hne)]
        rw [FS.readD_appendFile_self, FS.readD_createFile_ne fs _ _ (fun e => hpne e.symm)]
        simp [List.append_assoc]
  · rw [if_neg hrot]
    refine ⟨rfl, ?_, ?_, ?_⟩
    · intro n h; injection h with h; exact h.symm
    · intro e h; cases h
    · simp [List.append_assoc]

/-- C8: for every writer state and filesystem, calling `flush` twice in a
row leaves exactly the same on-disk content and writer state as calling it
once — repeated flushes never duplicate or drop data. -/
theorem C8_flush_idempotent (w : EfficientFileWriter) (fs : FS) :
    ((w.flush fs).2.1.flush (w.flush fs).2.2).2 = ((w.flush fs).2.1, (w.flush fs).2.2) := by
  by_cases hfail : segPath w.directory w.base_name w.current_seg ∈ fs.failing
  · simp [EfficientFileWriter.flush, hfail]
  · simp only [EfficientFileWriter.flush, if_neg hfail]
    rw [if_neg (by simpa [FS.appendFile] using hfail)]
    have happ : (fs.appendFile (segPath w.directory w.base_name w.current_seg) w.buffer).appendFile
        (segPath w.directory w.base_name w.current_seg) [] =
        fs.appendFile (segPath w.directory w.base_name w.current_seg) w.buffer := by
      simp only [FS.appendFile, FS.readD, FS.readFile]
      rw [AList.get?_set_self]
      simp only [Option.getD_some, List.append_nil]
      rw [AList.set_eq_of_get? _ _ _ (AList.get?_set_self _ _ _)]
    rw [happ]


theorem FS.createFile_failing (fs : FS) (p : String) : (fs.createFile p).failing = fs.failing :=
  rfl

theorem FS.createDirAll_failing (fs : FS) (d : String) :
    (fs.createDirAll d).failing = fs.failing := by
  by_cases h : d ∈ fs.dirs <;> simp [FS.createDirAll, h]

theorem FS.mem_createDirAll_dirs (fs : FS) (d : String) : d ∈ (fs.createDirAll d).dirs := by
  by_cases h : d ∈ fs.dirs <;> simp [FS.createDirAll, h]

theorem FS.createDirAll_of_mem (fs : FS) (d : String) (h : d ∈ fs.dirs) :
    fs.createDirAll d = fs := by
  simp [FS.createDirAll, h]

/-- C2 (amended): for every base name and directory, constructing a writer
with `itemsPerSegment = 0` succeeds (there is no `ConfigError` path in the
code), creating the directory and segment `base.0`; every subsequent
`write` panics at `writes_performed % 0`, and the same holds for the
reader's `read_line`.  This matches the source's own doc comment (`This
writer will panic if the number of writes per file is 0`). -/
theorem C2_zero_threshold (b d : String) (fs : FS)
    (hd : d ∉ fs.failing) (hp : segPath d b 0 ∉ fs.failing) :
    ∃ w fs1, EfficientFileWriter.new b 0 d fs = (Except.ok w, fs1) ∧
      d ∈ fs1.dirs ∧ fs1.readFile (segPath d b 0) = some [] ∧
      (∀ data, (w.write fs1 data).1 = Except.error Err.divByZeroPanic) ∧
      ∃ rd, (EfficientFileReader.new b 0 d fs1).1 = Except.ok rd ∧
        (rd.read_line fs1 []).1 = Except.error Err.divByZeroPanic := by
  have hp1 : ¬ segPath d b 0 ∈ (fs.createDirAll d).failing := by
    rw [FS.createDirAll_failing]
    exact hp
  have hnew : EfficientFileWriter.new b 0 d fs =
      (Except.ok ⟨b, d, 0, 0, 0, []⟩, (fs.createDirAll d).createFile (segPath d b 0)) := by
    simp only [EfficientFileWriter.new, if_neg hd]
    rw [if_neg hp1]
  have hread : ((fs.createDirAll d).createFile (segPath d b 0)).readFile (segPath d b 0) =
      some [] := by
    simp [FS.createFile, FS.readFile, AList.get?_set_self]
  refine ⟨⟨b, d, 0, 0, 0, []⟩, (fs.createDirAll d).createFile (segPath d b 0), hnew, ?_,
    hread, ?_, ?_⟩
  · exact FS.mem_createDirAll_dirs fs d
  · intro data
    simp [EfficientFileWriter.write]
  · refine ⟨⟨b, d, 0, 0, 0, []⟩, ?_, ?_⟩
    · have hdd : ((fs.createDirAll d).createFile (segPath d b 0)).createDirAll d =
          (fs.createDirAll d).createFile (segPath d b 0) :=
        FS.createDirAll_of_mem _ d (FS.mem_createDirAll_dirs fs d)
      simp only [EfficientFileReader.new]
      rw [if_neg (by rw [FS.createFile_failing, FS.createDirAll_failing]; exact hd)]
      rw [hdd]
      rw [if_neg (by rw [FS.createFile_failing, FS.createDirAll_failing]; exact hp)]
      rw [hread]
    · simp [EfficientFileReader.read_line, readUntilNl, strPop, validUtf8, utf8Run]

/-- C3 (amended): away from a rotation boundary, when the active segment's
stream is exhausted `read_line` returns `Ok 0` with the buffer unchanged
(and still increments `writes_performed`), and a partial final line without
a trailing delimiter is returned as a success whose record has lost its
final character to `String::pop` — there is no `EndOfSegment` error. -/
theorem C3_eof_and_truncation (r : EfficientFileReader) (fs : FS)
    (hN : 0 < r.writes_per_file)
    (hnb : (r.writes_performed + 1) % r.writes_per_file ≠ 0) :
    (r.stream = [] →
      r.read_line fs [] =
        (Except.ok 0, { r with writes_performed := r.writes_performed + 1 }, [])) ∧
    (∀ t, 10 ∉ t → validUtf8 t = true → r.stream = t →
      r.read_line fs [] =
        (Except.ok t.length,
          { r with stream := [], writes_performed := r.writes_performed + 1 },
          strPop t)) := by
  have hNne : ¬ r.writes_per_file = 0 := by omega
  constructor
  · intro hs
    obtain ⟨b0, d0, N0, wp0, cs0, st0⟩ := r
    simp only at hs
    subst hs
    simp only [EfficientFileReader.read_line, readUntilNl]
    rw [if_neg (by decide : ¬ (validUtf8 [] = false))]
    simp only at hNne hnb
    rw [if_neg hNne, if_neg hnb]
    rfl
  · intro t h10 hu hs
    have hru := readUntilNl_noDelim t h10
    simp only [EfficientFileReader.read_line, hs, hru]
    rw [if_neg (by simp [hu])]
    rw [if_neg hNne, if_neg hnb]
    simp

/-- C9: at a rotation boundary, if creating (writer) or opening (reader)
the next segment file fails, the operation returns an I/O error only after
the record has already been appended (or read into the caller's buffer)
and `writes_performed` has already been incremented, while the previously
active segment handle stays current — so `current_file_name` names a
segment whose handle is not the open one. -/
theorem C9_rotation_failure_state (w : EfficientFileWriter) (fsw : FS) (data : List Nat)
    (r : EfficientFileReader) (fsr : FS) (buf : List Nat)
    (hNw : 0 < w.writes_per_file)
    (hsw : w.current_seg = w.writes_performed - w.writes_performed % w.writes_per_file)
    (hbw : (w.writes_performed + 1) % w.writes_per_file = 0)
    (hfw : segPath w.directory w.base_name (w.writes_performed + 1) ∈ fsw.failing)
    (hNr : 0 < r.writes_per_file)
    (hsr : r.current_seg = r.writes_performed - r.writes_performed % r.writes_per_file)
    (hbr : (r.writes_performed + 1) % r.writes_per_file = 0)
    (hvr : validUtf8 (readUntilNl r.stream).1 = true)
    (hmr : fsr.readFile (segPath r.directory r.base_name (r.writes_performed + 1)) = none)
    (hfr : segPath r.directory r.base_name (r.writes_performed + 1) ∉ fsr.failing) :
    (w.write fsw data).1 = Except.error Err.fault ∧
    (w.write fsw data).2.1.writes_performed = w.writes_performed + 1 ∧
    (w.write fsw data).2.1.buffer = w.buffer ++ data ++ [10] ∧
    (w.write fsw data).2.1.current_seg = w.current_seg ∧
    (w.write fsw data).2.2 = fsw ∧
    (w.write fsw data).2.1.current_file_name =
      Except.ok (segName w.base_name (w.writes_performed + 1)) ∧
    w.current_seg ≠ w.writes_performed + 1 ∧
    (r.read_line fsr buf).1 = Except.error Err.notFound ∧
    (r.read_line fsr buf).2.1.writes_performed = r.writes_performed + 1 ∧
    (r.read_line fsr buf).2.1.current_seg = r.current_seg ∧
    (r.read_line fsr buf).2.1.stream = (readUntilNl r.stream).2 ∧
    (r.read_line fsr buf).2.2 = strPop (buf ++ (readUntilNl r.stream).1) ∧
    (r.read_line fsr buf).2.1.current_file_name =
      Except.ok (segName r.base_name (r.writes_performed + 1)) ∧
    r.current_seg ≠ r.writes_performed + 1 := by
  have hNwne : ¬ w.writes_per_file = 0 := by omega
  have hNrne : ¬ r.writes_per_file = 0 := by omega
  have hwmle := Nat.mod_le w.writes_performed w.writes_per_file
  have hrmle := Nat.mod_le r.writes_performed r.writes_per_file
  have hwr : w.write fsw data =
      (Except.error Err.fault,
        { w with buffer := w.buffer ++ data ++ [10],
                 writes_performed := w.writes_performed + 1 }, fsw) := by
    simp only [EfficientFileWriter.write, if_neg hNwne]
    rw [if_pos hbw, if_pos hfw]
  have hrr : r.read_line fsr buf =
      (Except.error Err.notFound,
        { r with stream := (readUntilNl r.stream).2,
                 writes_performed := r.writes_performed + 1 },
        strPop (buf ++ (readUntilNl r.stream).1)) := by
    simp only [EfficientFileReader.read_line]
    rw [if_neg (by simp [hvr])]
    rw [if_neg hNrne, if_pos hbr, if_neg hfr]
    rw [hmr]
  rw [hwr, hrr]
  refine ⟨rfl, rfl, rfl, rfl, rfl, ?_, by omega, rfl, rfl, rfl, rfl, rfl, ?_, by omega⟩
  · simp only [EfficientFileWriter.current_file_name, if_neg hNwne]
    rw [hbw, Nat.sub_zero]
  · simp only [EfficientFileReader.current_file_name, if_neg hNrne]
    rw [hbr, Nat.sub_zero]

/-- C10: `write` accepts the non-UTF-8 record `[255]` (returning its
length plus one delimiter byte), but reading the resulting archive back
fails with an `InvalidData` I/O error instead of returning the record —
the round trip is guaranteed only for valid UTF-8 records. -/
theorem C10_utf8_read_restriction :
    ((⟨"b", "d", 3, 0, 0, []⟩ : EfficientFileWriter).write
        ⟨["d"], [(segPath "d" "b" 0, [])], []⟩ [255]).1 = Except.ok 2 ∧
    roundTrip "b" "d" 3 [[255]] = none ∧
    ((⟨"b", "d", 3, 0, 0, [255, 10]⟩ : EfficientFileReader).read_line
        ⟨["d"], [(segPath "d" "b" 0, [255, 10])], []⟩ []).1 =
      Except.error Err.invalidData := by decide


/-- C1 (amended): the write/flush/read round trip reproduces the record
sequence byte-for-byte for every sequence of delimiter-free records that
are valid UTF-8 (the code reads records back through a Rust `String`, so
the round trip as originally claimed fails on non-UTF-8 records; see
`C1_counterexample`). -/
theorem C1_round_trip_utf8 (b d : String) (N : Nat) (rs : List (List Nat)) (hN : 0 < N)
    (hrec : ∀ t ∈ rs, 10 ∉ t ∧ validUtf8 t = true) :
    roundTrip b d N rs = some rs := by
  have hw := writeAll_ok b d N hN rs []
  simp only [List.nil_append] at hw
  have hr := readAll_spec b d N hN rs hrec rs.length 0 (by omega)
  simp only [List.drop_zero, Nat.zero_add] at hr
  simp only [roundTrip, runWriterFlush, runWriter, writer_new_spec, hw,
    flush_spec b d N hN rs, reader_new_spec b d N hN rs, hr]

/-- C1 (counterexample): the round trip as originally claimed, for every
delimiter-free byte record, fails at the concrete record `[255]` — the
write succeeds but reading back fails on UTF-8 validation instead of
yielding the record. -/
theorem C1_counterexample : ¬ (roundTrip "t" "d" 10 [[255]] = some [[255]]) := by decide

/-- C1 (witness): the amended round trip evaluated at `N = 2` and the
two-record sequence `[[104], []]`. -/
theorem C1_witness :
    (0 < 2 ∧ ∀ t ∈ [[104], []], 10 ∉ t ∧ validUtf8 t = true) ∧
    roundTrip "t" "d" 2 [[104], []] = some [[104], []] :=
  ⟨⟨by decide, by decide⟩, C1_round_trip_utf8 "t" "d" 2 [[104], []] (by decide) (by decide)⟩

/-- C2 (counterexample): constructing a writer with `itemsPerSegment = 0`
does not fail with a configuration error and does mutate the filesystem —
`new` returns `ok`, creating the directory and `b.0` — and the very first
write then reaches the modulo with a zero divisor. -/
theorem C2_counterexample :
    EfficientFileWriter.new "b" 0 "d" FS.empty =
      (Except.ok ⟨"b", "d", 0, 0, 0, []⟩, ⟨["d"], [(segPath "d" "b" 0, [])], []⟩) ∧
    (⟨["d"], [(segPath "d" "b" 0, [])], []⟩ : FS) ≠ FS.empty ∧
    ((⟨"b", "d", 0, 0, 0, []⟩ : EfficientFileWriter).write
        ⟨["d"], [(segPath "d" "b" 0, [])], []⟩ [97]).1 =
      Except.error Err.divByZeroPanic := by decide

/-- C2 (witness): the amended zero-threshold behaviour evaluated on the
empty filesystem. -/
theorem C2_witness :
    (("d" : String) ∉ FS.empty.failing ∧ segPath "d" "b" 0 ∉ FS.empty.failing) ∧
    (∃ w fs1, EfficientFileWriter.new "b" 0 "d" FS.empty = (Except.ok w, fs1) ∧
      "d" ∈ fs1.dirs ∧ fs1.readFile (segPath "d" "b" 0) = some [] ∧
      (∀ data, (w.write fs1 data).1 = Except.error Err.divByZeroPanic) ∧
      ∃ rd, (EfficientFileReader.new "b" 0 "d" fs1).1 = Except.ok rd ∧
        (rd.read_line fs1 []).1 = Except.error Err.divByZeroPanic) :=
  ⟨⟨by decide, by decide⟩, C2_zero_threshold "b" "d" FS.empty (by decide) (by decide)⟩

/-- C3 (counterexample): when the active segment is exhausted `read_line`
returns `Ok 0` — not an `EndOfSegment` error distinct from `IOError` — and
a partial final line `[97, 98]` lacking the trailing delimiter is returned
as `Ok 2` with the truncated record `[97]` rather than reported as an
error. -/
theorem C3_counterexample :
    ((⟨"b", "d", 5, 1, 0, []⟩ : EfficientFileReader).read_line
        (flushedFS "b" "d" 5 [[97]]) []).1 = Except.ok 0 ∧
    ((⟨"b", "d", 5, 0, 0, [97, 98]⟩ : EfficientFileReader).read_line FS.empty []) =
      (Except.ok 2, ⟨"b", "d", 5, 1, 0, []⟩, [97]) := by decide

/-- C3 (witness): the amended end-of-segment behaviour evaluated at a
reader whose stream is exhausted. -/
theorem C3_witness :
    (0 < (⟨"b", "d", 5, 1, 0, []⟩ : EfficientFileReader).writes_per_file ∧
      ((⟨"b", "d", 5, 1, 0, []⟩ : EfficientFileReader).writes_performed + 1) %
        (⟨"b", "d", 5, 1, 0, []⟩ : EfficientFileReader).writes_per_file ≠ 0) ∧
    (⟨"b", "d", 5, 1, 0, []⟩ : EfficientFileReader).read_line FS.empty [] =
      (Except.ok 0, ⟨"b", "d", 5, 2, 0, []⟩, []) :=
  ⟨⟨by decide, by decide⟩,
    (C3_eof_and_truncation ⟨"b", "d", 5, 1, 0, []⟩ FS.empty (by decide) (by decide)).1 rfl⟩

/-- C4 (witness): the rotation boundary evaluated at `N = 2` with records
`[[97], [98]]`. -/
theorem C4_witness :
    (0 < 2 ∧ ([[97], [98]] : List (List Nat)).length = 2) ∧
    (∃ w fs, runWriter "b" "d" 2 [[97], [98]] = some (w, fs) ∧
      fs.files = [(segPath "d" "b" 0, encode [[97], [98]]), (segPath "d" "b" 2, [])] ∧
      fs.dirs = ["d"] ∧
      w.current_file_name = Except.ok (segName "b" 2)) :=
  ⟨⟨by decide, by decide⟩, C4_rotation_boundary "b" "d" 2 [[97], [98]] (by decide) (by decide)⟩

/-- C5 (witness): the naming invariant evaluated at concrete writer and
reader states, including the zero-records case. -/
theorem C5_witness :
    (0 < (⟨"b", "d", 3, 0, 0, []⟩ : EfficientFileWriter).writes_per_file ∧
      0 < (⟨"c", "e", 4, 9, 8, []⟩ : EfficientFileReader).writes_per_file) ∧
    (⟨"b", "d", 3, 0, 0, []⟩ : EfficientFileWriter).current_file_name =
        Except.ok (segName "b" 0) ∧
    (⟨"c", "e", 4, 9, 8, []⟩ : EfficientFileReader).current_file_name =
        Except.ok (segName "c" 8) ∧
    (⟨"b", "d", 3, 0, 0, []⟩ : EfficientFileWriter).current_file_name =
        Except.ok ("b" ++ "." ++ "0") := by
  have h := C5_naming_invariant ⟨"b", "d", 3, 0, 0, []⟩ ⟨"c", "e", 4, 9, 8, []⟩
    (by decide) (by decide)
  exact ⟨⟨by decide, by decide⟩, h.1, h.2.1, h.2.2.1 rfl⟩

/-- C6 (witness): the write postcondition evaluated at a fresh writer with
`N = 2` writing the record `[97]`. -/
theorem C6_witness :
    (0 < (⟨"b", "d", 2, 0, 0, []⟩ : EfficientFileWriter).writes_per_file ∧
      (⟨"b", "d", 2, 0, 0, []⟩ : EfficientFileWriter).current_seg = 0 - 0 % 2 ∧
      segPath "d" "b" 0 ∉ FS.empty.failing) ∧
    (((⟨"b", "d", 2, 0, 0, []⟩ : EfficientFileWriter).write FS.empty [97]).2.1.writes_performed =
        1 ∧
      ((⟨"b", "d", 2, 0, 0, []⟩ : EfficientFileWriter).write FS.empty [97]).1 = Except.ok 2 ∧
      ((⟨"b", "d", 2, 0, 0, []⟩ : EfficientFileWriter).write FS.empty [97]).2.2.readD
          (segPath "d" "b" 0) ++
        ((⟨"b", "d", 2, 0, 0, []⟩ : EfficientFileWriter).write FS.empty [97]).2.1.buffer =
        [97, 10]) := by
  have h := C6_write_postcondition ⟨"b", "d", 2, 0, 0, []⟩ FS.empty [97]
    (by decide) (by decide) (by decide)
  exact ⟨⟨by decide, by decide, by decide⟩, h.1, by decide, by decide⟩

/-- C7 (witness): the sub-boundary property evaluated at `N = 3` with two
records. -/
theorem C7_witness :
    (0 < 3 ∧ ([[97], [98]] : List (List Nat)).length = 3 - 1) ∧
    (∃ w fs, runWriterFlush "b" "d" 3 [[97], [98]] = some (w, fs) ∧
      fs.files = [(segPath "d" "b" 0, encode [[97], [98]])] ∧
      fs.dirs = ["d"] ∧
      w.current_file_name = Except.ok (segName "b" 0)) :=
  ⟨⟨by decide, by decide⟩, C7_sub_boundary "b" "d" 3 [[97], [98]] (by decide) (by decide)⟩

/-- C9 (witness): the non-atomic rotation failure evaluated at `N = 2`
with a fault-injected `d/b.2` on the writer side and a missing `d/b.2` on
the reader side. -/
theorem C9_witness :
    ((1 + 1) % 2 = 0 ∧
      segPath "d" "b" 2 ∈ (⟨[], [], [segPath "d" "b" 2]⟩ : FS).failing ∧
      FS.empty.readFile (segPath "d" "b" 2) = none) ∧
    ((⟨"b", "d", 2, 1, 0, []⟩ : EfficientFileWriter).write
        ⟨[], [], [segPath "d" "b" 2]⟩ [97]).1 = Except.error Err.fault ∧
    ((⟨"b", "d", 2, 1, 0, []⟩ : EfficientFileWriter).write
        ⟨[], [], [segPath "d" "b" 2]⟩ [97]).2.1.writes_performed = 2 ∧
    ((⟨"b", "d", 2, 1, 0, []⟩ : EfficientFileWriter).write
        ⟨[], [], [segPath "d" "b" 2]⟩ [97]).2.2 = ⟨[], [], [segPath "d" "b" 2]⟩ ∧
    ((⟨"b", "d", 2, 1, 0, [99, 10]⟩ : EfficientFileReader).read_line FS.empty []).1 =
      Except.error Err.notFound ∧
    ((⟨"b", "d", 2, 1, 0, [99, 10]⟩ : EfficientFileReader).read_line FS.empty []).2.2 =
      [99] := by
  have h := C9_rotation_failure_state ⟨"b", "d", 2, 1, 0, []⟩ ⟨[], [], [segPath "d" "b" 2]⟩ [97]
    ⟨"b", "d", 2, 1, 0, [99, 10]⟩ FS.empty [] (by decide) (by decide) (by decide) (by decide)
    (by decide) (by decide) (by decide) (by decide) (by decide) (by decide)
  obtain ⟨hw1, hw2, hw3, hw4, hw5, hw6, hw7, hr1, hr2, hr3, hr4, hr5, hr6, hr7⟩ := h
  refine ⟨⟨by decide, by decide, by decide⟩, hw1, hw2, hw5, hr1, ?_⟩
  rw [hr5]
  decide

end GatherBlocks
